import Mathlib

/-!
Verification of the open-control minimal Teensy 4.1 example: a shallow
embedding of the input-processing core (quadrature decoding, rotation
normalization, button debouncing, gesture detection, binding dispatch)
and of the example application's handlers (src/src/main.cpp) with its
configuration constants (src/include/Config.hpp).

Machine integers are modelled as Nat/Int; the normalized encoder position
(a C float in [0,1]) is modelled with exact rational arithmetic, and the
truncating float-to-uint8_t cast as the integer floor for non-negative
values. Timestamps are naturals (milliseconds of a monotonic clock);
elapsed time now - t uses truncated Nat subtraction, matching unsigned
wraparound-free elapsed-time computation.
-/

namespace OC

/-- Long press threshold in milliseconds (Config.hpp: LONG_PRESS_MS). -/
def LONG_PRESS_MS : ℕ := 500

/-- Double tap window in milliseconds (Config.hpp: DOUBLE_TAP_MS). -/
def DOUBLE_TAP_MS : ℕ := 300

/-- Button debounce time in milliseconds (Config.hpp: DEBOUNCE_MS). -/
def DEBOUNCE_MS : ℕ := 5

/-- MIDI channel (Config.hpp: MIDI_CHANNEL). -/
def MIDI_CHANNEL : ℕ := 0

/-- Base CC number for encoders (Config.hpp: ENCODER_CC_BASE). -/
def ENCODER_CC_BASE : ℕ := 16

/-- CC number for button 1 (Config.hpp: BUTTON1_CC). -/
def BUTTON1_CC : ℕ := 20

/-- CC number for button 2 (Config.hpp: BUTTON2_CC). -/
def BUTTON2_CC : ℕ := 21

/-- Encoder hardware definition (oc::common::EncoderDef as used in Config.hpp). -/
structure EncoderDef where
  id : ℕ
  pinA : ℕ
  pinB : ℕ
  ppr : ℕ
  rangeAngle : ℚ
  ticksPerEvent : ℕ
  invertDirection : Bool
deriving DecidableEq

/-- The four encoder definitions of Config.hpp (Config::ENCODERS). -/
def ENCODERS : List EncoderDef :=
  [ ⟨1, 22, 23, 24, 270, 4, false⟩
  , ⟨2, 18, 19, 24, 270, 4, false⟩
  , ⟨3, 40, 41, 24, 270, 4, false⟩
  , ⟨4, 36, 37, 24, 270, 4, false⟩ ]

/-- Button hardware definition (oc::common::ButtonDef as used in Config.hpp). -/
structure ButtonDef where
  id : ℕ
  pin : ℕ
  activeLow : Bool
deriving DecidableEq

/-- The two button definitions of Config.hpp (Config::BUTTONS). -/
def BUTTONS : List ButtonDef :=
  [ ⟨1, 32, true⟩
  , ⟨2, 35, true⟩ ]

/-! ## Quadrature Decoder (spec §4.1) -/

/-- Modelled from the spec: the 2-bit quadrature phase `(A<<1)|B` maintained by
the Quadrature Decoder, which is not under src/ (only its configuration and
callers are). -/
def phase (a b : Bool) : ℕ := (cond a 1 0) * 2 + (cond b 1 0)

/-- Modelled from the spec: the four valid forward single-step quadrature
transitions of the fixed valid-transition table (Gray-code cycle
00 → 01 → 11 → 10 → 00). -/
def validForward : List (ℕ × ℕ) := [(0, 1), (1, 3), (3, 2), (2, 0)]

/-- Modelled from the spec: the four valid reverse single-step quadrature
transitions (the forward cycle reversed). -/
def validReverse : List (ℕ × ℕ) := [(1, 0), (3, 1), (2, 3), (0, 2)]

/-- Modelled from the spec: signed tick contribution of one observed phase
transition; a transition matching no valid entry is noise and contributes 0. -/
def tickDelta (prev cur : ℕ) : ℤ :=
  if (prev, cur) ∈ validForward then 1
  else if (prev, cur) ∈ validReverse then -1
  else 0

/-- Runtime state of one encoder channel's decoder: last observed phase and
the signed raw tick accumulator (spec §3, EncoderRuntimeState). -/
structure DecodeState where
  lastPhase : ℕ
  acc : ℤ
deriving DecidableEq

/-- Modelled from the spec: one poll of the Quadrature Decoder, not under
src/. Computes the transition from the previous phase to the current phase;
a valid forward transition increments the raw tick accumulator, a valid
reverse one decrements it, with increment/decrement swapped when
`invertDirection` is configured; an invalid transition changes nothing.
The last observed phase is updated to the current sample. -/
def decodeStep (invert : Bool) (st : DecodeState) (cur : ℕ) : DecodeState :=
  let d := tickDelta st.lastPhase cur
  ⟨cur, st.acc + (if invert then -d else d)⟩

/-- Run the decoder over a sequence of sampled phases. -/
def runDecode (invert : Bool) (st : DecodeState) (phases : List ℕ) : DecodeState :=
  phases.foldl (decodeStep invert) st

/-! ## Rotation Normalizer (spec §4.2) -/

/-- Runtime state of one encoder channel's normalizer: absolute angular
position (clamped to `[0, rangeAngle]`) and the signed event-quantum
accumulator of ticks since the last emitted event (spec §3). -/
structure NormState where
  position : ℚ
  quantum : ℤ
deriving DecidableEq

/-- An emitted EncoderTurn event: id, normalized value, signed tick delta. -/
structure EncoderTurn where
  id : ℕ
  value : ℚ
  delta : ℤ
deriving DecidableEq

/-- Clamp a rational to the interval `[lo, hi]`. -/
def clampQ (lo hi x : ℚ) : ℚ := max lo (min hi x)

/-- Normalized value of a normalizer state: `position / rangeAngle` (spec §4.2). -/
def NormState.normalized (cfg : EncoderDef) (st : NormState) : ℚ :=
  st.position / cfg.rangeAngle

/-- Modelled from the spec: the position update of one Rotation Normalizer
step, not under src/. Converts the poll's signed tick delta to angle at
`rangeAngle / ppr` per tick and accumulates it into the position clamped to
`[0, rangeAngle]` (saturation, not wraparound). -/
def newPosition (cfg : EncoderDef) (st : NormState) (delta : ℤ) : ℚ :=
  clampQ 0 cfg.rangeAngle (st.position + (delta : ℚ) * (cfg.rangeAngle / (cfg.ppr : ℚ)))

/-- Modelled from the spec: one step of the Rotation Normalizer, not under
src/. Updates the clamped position and adds the poll's delta to the
event-quantum accumulator; when the accumulated tick count since the last
emitted event reaches `ticksPerEvent` in either direction it emits an
`EncoderTurn` carrying the new normalized value and the accumulated signed
tick delta, and resets the quantum accumulator. -/
def normStep (cfg : EncoderDef) (st : NormState) (delta : ℤ) : NormState × Option EncoderTurn :=
  if (cfg.ticksPerEvent : ℤ) ≤ |st.quantum + delta| then
    (⟨newPosition cfg st delta, 0⟩,
      some ⟨cfg.id, newPosition cfg st delta / cfg.rangeAngle, st.quantum + delta⟩)
  else
    (⟨newPosition cfg st delta, st.quantum + delta⟩, none)

/-- Run the normalizer over a sequence of per-poll tick deltas, collecting
the emitted events in order. -/
def runNorm (cfg : EncoderDef) (st : NormState) : List ℤ → NormState × List EncoderTurn
  | [] => (st, [])
  | d :: ds =>
    let (st', ev) := normStep cfg st d
    let (stf, evs) := runNorm cfg st' ds
    (stf, ev.toList ++ evs)

/-- Initial normalizer state: position 0, empty quantum accumulator. -/
def normInit : NormState := ⟨0, 0⟩

/-! ## Button Debouncer (spec §4.3) -/

/-- Runtime debounce state of one button channel: last stable logical level
(true = pressed) and, while settling, the time the settling window started
(spec §3, ButtonRuntimeState). -/
structure DebounceState where
  stable : Bool
  settle : Option ℕ
deriving DecidableEq

/-- Candidate logical level: the raw pin level mapped through the channel's
active-polarity flag (active-low inverts the raw reading). -/
def candidate (activeLow raw : Bool) : Bool := xor raw activeLow

/-- Modelled from the spec: one poll of the Button Debouncer, not under src/.
Maps the raw pin level to a candidate logical level via the polarity flag.
A candidate equal to the last stable level clears any settling timer; a
differing candidate starts the settling timer, or, when the candidate has
held for at least the debounce window since the timer started, flips the
stable level and hands the new level to the Gesture Detector. -/
def debounceStep (debounceMs : ℕ) (activeLow : Bool) (st : DebounceState)
    (now : ℕ) (raw : Bool) : DebounceState × Option Bool :=
  let cand := candidate activeLow raw
  if cand = st.stable then
    (⟨st.stable, none⟩, none)
  else
    match st.settle with
    | none => (⟨st.stable, some now⟩, none)
    | some t0 =>
      if debounceMs ≤ now - t0 then (⟨cand, none⟩, some cand) else (st, none)

/-- Run the debouncer over a sequence of timestamped raw samples, collecting
the stable transitions it emits in order. -/
def runDebounce (debounceMs : ℕ) (activeLow : Bool) (st : DebounceState) :
    List (ℕ × Bool) → DebounceState × List Bool
  | [] => (st, [])
  | (now, raw) :: ps =>
    let (st', tr) := debounceStep debounceMs activeLow st now raw
    let (stf, trs) := runDebounce debounceMs activeLow st' ps
    (stf, tr.toList ++ trs)

/-! ## Gesture Detector (spec §4.4) -/

/-- A button gesture event (the button-event alternatives of spec §3). -/
inductive BEvent where
  | press
  | release
  | longPress
  | doubleTap
deriving DecidableEq

/-- Runtime gesture state of one button channel: pressed/released machine
state, press-start timestamp, long-press-fired flag, and the timestamp of
the pending previous release for the double-tap window (spec §3). -/
structure GestureState where
  pressed : Bool
  pressStart : ℕ
  longFired : Bool
  lastRelease : Option ℕ
deriving DecidableEq

/-- Modelled from the spec: one poll of the Gesture Detector, not under src/.
Input is the clock reading and the debounced stable edge of this poll, if
any (`some true` = press edge, `some false` = release edge). While pressed,
once elapsed time since press-start reaches `longPressMs` and the flag is
unset, a single `ButtonLongPress` is emitted and the flag set (checked once
per poll, before any edge of the same poll is applied). A press edge emits
`ButtonPress` and records press-start; a release edge emits `ButtonRelease`
and then evaluates double-tap release-to-release: within `doubleTapWindowMs`
of the pending previous release it emits `ButtonDoubleTap` and clears the
pending-tap memory, otherwise it records this release as the new pending
tap. The long-press evaluation of one poll is factored out as `longCheck`:
while pressed, once elapsed wall-clock time since press-start reaches the
threshold and the flag is unset, emit a single `ButtonLongPress` and set
the flag. -/
def longCheck (longPressMs : ℕ) (st : GestureState) (now : ℕ) :
    GestureState × List BEvent :=
  if st.pressed ∧ ¬st.longFired ∧ longPressMs ≤ now - st.pressStart then
    (⟨st.pressed, st.pressStart, true, st.lastRelease⟩, [BEvent.longPress])
  else (st, [])

def gestureStep (longPressMs doubleTapMs : ℕ) (st : GestureState)
    (now : ℕ) (edge : Option Bool) : GestureState × List BEvent :=
  match edge with
  | none => longCheck longPressMs st now
  | some true =>
    (⟨true, now, false, st.lastRelease⟩,
      (longCheck longPressMs st now).2 ++ [BEvent.press])
  | some false =>
    match st.lastRelease with
    | some t =>
      if now - t ≤ doubleTapMs then
        (⟨false, st.pressStart, (longCheck longPressMs st now).1.longFired, none⟩,
          (longCheck longPressMs st now).2 ++ [BEvent.release, BEvent.doubleTap])
      else
        (⟨false, st.pressStart, (longCheck longPressMs st now).1.longFired, some now⟩,
          (longCheck longPressMs st now).2 ++ [BEvent.release])
    | none =>
      (⟨false, st.pressStart, (longCheck longPressMs st now).1.longFired, some now⟩,
        (longCheck longPressMs st now).2 ++ [BEvent.release])

/-- Run the gesture detector over a sequence of timestamped polls, collecting
the emitted events in order. -/
def runGesture (longPressMs doubleTapMs : ℕ) (st : GestureState) :
    List (ℕ × Option Bool) → GestureState × List BEvent
  | [] => (st, [])
  | (now, edge) :: ps =>
    let (st', evs) := gestureStep longPressMs doubleTapMs st now edge
    let (stf, evss) := runGesture longPressMs doubleTapMs st' ps
    (stf, evs ++ evss)

/-! ## Binding Registry & Dispatcher (spec §4.5) -/

/-- Device kind of a binding key. -/
inductive DeviceKind where
  | button
  | encoder
deriving DecidableEq

/-- Event kind of a binding key. -/
inductive EventKind where
  | turn
  | press
  | release
  | longPress
  | doubleTap
deriving DecidableEq

/-- A binding key: device kind, numeric id, event kind (spec §3, Binding). -/
structure BindKey where
  kind : DeviceKind
  id : ℕ
  ev : EventKind
deriving DecidableEq

/-- Modelled from the spec: synchronous dispatch of one event occurrence by
the Binding Registry & Dispatcher, not under src/. The registry is the
ordered list of (key, handler) registrations; handlers act on a state `σ`
(the value an application handler mutates). Each registered handler whose
key equals the event's key runs to completion, in registration order; an
event whose key has no registered handler is discarded without error. -/
def dispatch {σ : Type} (reg : List (BindKey × (σ → σ))) (k : BindKey) (s : σ) : σ :=
  match reg with
  | [] => s
  | (k', h) :: rest => if k' = k then dispatch rest k (h s) else dispatch rest k s

/-- Registry of tagged recorder handlers: each registration appends its tag
to the shared sequence-recorder state when invoked. -/
def taggedReg (reg : List (BindKey × ℕ)) : List (BindKey × (List ℕ → List ℕ)) :=
  reg.map (fun e => (e.1, fun l => l ++ [e.2]))

/-! ## Application handlers (src/src/main.cpp, MinimalContext) -/

/-- A MIDI Control-Change message as sent by `midi().sendCC(channel, cc, value)`. -/
structure MidiCC where
  channel : ℕ
  cc : ℕ
  value : ℕ
deriving DecidableEq

/-- The truncating `static_cast<uint8_t>` of a non-negative float value,
modelled exactly on rationals: floor toward zero. -/
def u8cast (x : ℚ) : ℕ := x.floor.toNat

/-- Encoder-turn handler registered in `MinimalContext::setupEncoderBindings`
for the encoder at configuration index `i`: sends one MIDI CC message on
`MIDI_CHANNEL` with controller `ENCODER_CC_BASE + i` and data value
`static_cast<uint8_t>(value * 127.0f)`. -/
def encoderTurnHandler (i : ℕ) (value : ℚ) : List MidiCC :=
  [⟨MIDI_CHANNEL, ENCODER_CC_BASE + i, u8cast (value * 127)⟩]

/-- Button 2 press handler registered in `MinimalContext::setupButtonBindings`:
negates `button2_state_`, then sends one MIDI CC message on `MIDI_CHANNEL`
with controller `BUTTON2_CC` and value 127 when the new state is true, 0
when it is false. Returns the new state and the message. -/
def button2Press (s : Bool) : Bool × MidiCC :=
  let s' := !s
  (s', ⟨MIDI_CHANNEL, BUTTON2_CC, if s' then 127 else 0⟩)

/-- State of `button2_state_` and the messages sent after `n` presses,
starting from the initial state `button2_state_ = false`. -/
def button2Run : ℕ → Bool × List MidiCC
  | 0 => (false, [])
  | n + 1 =>
    let (s, ms) := button2Run n
    let (s', m) := button2Press s
    (s', ms ++ [m])

/-! ## Helper lemmas -/

theorem dispatch_eq_filter_foldl {σ : Type} (reg : List (BindKey × (σ → σ)))
    (k : BindKey) (s : σ) :
    dispatch reg k s =
      (reg.filter fun e => decide (e.1 = k)).foldl (fun s e => e.2 s) s := by
  induction reg generalizing s with
  | nil => rfl
  | cons e rest ih =>
    obtain ⟨k', h⟩ := e
    by_cases hk : k' = k <;> simp [dispatch, hk, List.filter, ih]

/-! ## Claim theorems -/

/-- C4: a poll whose phase transition matches neither a valid forward nor a
valid reverse single-step quadrature transition leaves the raw tick
accumulator unchanged, for any inversion setting and any single such
invalid transition. -/
theorem invalid_transition_keeps_accumulator (invert : Bool) (st : DecodeState)
    (cur : ℕ) (hf : (st.lastPhase, cur) ∉ validForward)
    (hr : (st.lastPhase, cur) ∉ validReverse) :
    (decodeStep invert st cur).acc = st.acc := by
  simp [decodeStep, tickDelta, hf, hr]

/-- Witness for C4: the transition 00 → 11 (a two-bit jump) is invalid and
leaves a concrete accumulator value 7 unchanged. -/
theorem invalid_transition_keeps_accumulator_witness :
    (0, 3) ∉ validForward ∧ (0, 3) ∉ validReverse ∧
      (decodeStep false ⟨0, 7⟩ 3).acc = (7 : ℤ) :=
  ⟨by decide, by decide,
    invalid_transition_keeps_accumulator false ⟨0, 7⟩ 3 (by decide) (by decide)⟩

/-- C7: dispatching an event invokes the handlers registered for its key
exactly in registration order: with sequence-recorder handlers, the recorded
sequence is the tag sequence of the matching registrations in registration
order; in particular two recorder handlers 1 and 2 registered in that order
on the same key record exactly the sequence [1, 2]. -/
theorem dispatch_follows_registration_order :
    (∀ (reg : List (BindKey × ℕ)) (k : BindKey) (acc : List ℕ),
        dispatch (taggedReg reg) k acc =
          acc ++ (reg.filter fun e => decide (e.1 = k)).map Prod.snd) ∧
      dispatch (taggedReg [(⟨DeviceKind.button, 1, EventKind.press⟩, 1),
          (⟨DeviceKind.button, 1, EventKind.press⟩, 2)])
        ⟨DeviceKind.button, 1, EventKind.press⟩ [] = [1, 2] := by
  have main : ∀ (reg : List (BindKey × ℕ)) (k : BindKey) (acc : List ℕ),
      dispatch (taggedReg reg) k acc =
        acc ++ (reg.filter fun e => decide (e.1 = k)).map Prod.snd := by
    intro reg
    induction reg with
    | nil => intro k acc; simp [taggedReg, dispatch]
    | cons e rest ih =>
      intro k acc
      obtain ⟨k', tag⟩ := e
      by_cases hk : k' = k
      · simp only [taggedReg, List.map, dispatch, hk, if_pos rfl, List.filter,
          decide_eq_true_eq, if_true] at ih ⊢
        rw [ih k (acc ++ [tag])]
        simp [hk]
      · simp only [taggedReg, List.map, dispatch, List.filter] at ih ⊢
        rw [if_neg hk, ih k acc]
        simp [hk]
  exact ⟨main, by rw [main]; rfl⟩

/-- C8: dispatching an event whose key has no registered handler leaves the
handler state unchanged (the event is discarded; dispatch is a total
function, so no error is raised). -/
theorem dispatch_unbound_event_noop {σ : Type} (reg : List (BindKey × (σ → σ)))
    (k : BindKey) (s : σ) (h : ∀ e ∈ reg, e.1 ≠ k) :
    dispatch reg k s = s := by
  induction reg with
  | nil => rfl
  | cons e rest ih =>
    have hne : e.1 ≠ k := h e (List.mem_cons_self e rest)
    obtain ⟨k', f⟩ := e
    simp only [dispatch]
    rw [if_neg hne]
    exact ih fun e' he' => h e' (List.mem_cons_of_mem _ he')

/-- Witness for C8: a registry containing one handler bound to another key
leaves a concrete state 5 unchanged when dispatching an unbound event. -/
theorem dispatch_unbound_event_noop_witness :
    dispatch [(⟨DeviceKind.button, 1, EventKind.press⟩, fun n => n + 1)]
      ⟨DeviceKind.button, 2, EventKind.press⟩ (5 : ℕ) = 5 :=
  dispatch_unbound_event_noop _ _ 5 (by simp)

/-- C9: for the encoder at configuration index `i < 4`, the registered
turn handler sends exactly one MIDI CC message, on channel MIDI_CHANNEL = 0
with controller ENCODER_CC_BASE + i (hence in 16..19), and for every
normalized value `0 ≤ v ≤ 1` the transmitted data value
`static_cast<uint8_t>(v * 127.0f)` lies in 0..127, with `v = 1` mapping
to 127. -/
theorem encoder_handler_sends_one_cc (i : ℕ) (v : ℚ)
    (hi : i < 4) (h0 : 0 ≤ v) (h1 : v ≤ 1) :
    (encoderTurnHandler i v).length = 1 ∧
      ∀ m ∈ encoderTurnHandler i v,
        m.channel = MIDI_CHANNEL ∧ m.cc = ENCODER_CC_BASE + i ∧
          16 ≤ m.cc ∧ m.cc ≤ 19 ∧ m.value ≤ 127 ∧ (v = 1 → m.value = 127) := by
  refine ⟨rfl, ?_⟩
  intro m hm
  simp only [encoderTurnHandler, List.mem_singleton] at hm
  subst hm
  refine ⟨rfl, rfl, by simp [ENCODER_CC_BASE], by simp [ENCODER_CC_BASE]; omega, ?_, ?_⟩
  · have hmul : v * 127 ≤ 127 := by nlinarith
    have hfl : (v * 127).floor ≤ (127 : ℤ) := by
      by_contra hlt
      push_neg at hlt
      have h128 : ((128 : ℤ) : ℚ) ≤ v * 127 := Rat.le_floor.mp (by omega)
      push_cast at h128
      nlinarith
    simpa [u8cast] using Int.toNat_le_toNat hfl
  · intro hv
    subst hv
    simp [u8cast]
    rfl

/-- Witness for C9: at index 0 and normalized value 1, the handler sends one
message on channel 0, controller 16, data value 127. -/
theorem encoder_handler_sends_one_cc_witness :
    (0 : ℕ) < 4 ∧ (0 : ℚ) ≤ 1 ∧ (1 : ℚ) ≤ 1 ∧
      ((encoderTurnHandler 0 1).length = 1 ∧
        ∀ m ∈ encoderTurnHandler 0 1,
          m.channel = MIDI_CHANNEL ∧ m.cc = ENCODER_CC_BASE + 0 ∧
            16 ≤ m.cc ∧ m.cc ≤ 19 ∧ m.value ≤ 127 ∧ ((1 : ℚ) = 1 → m.value = 127)) :=
  ⟨by decide, by norm_num, le_refl 1,
    encoder_handler_sends_one_cc 0 1 (by decide) (by norm_num) (le_refl 1)⟩

/-- C10: starting from `button2_state_ = false`, after `n` presses the state
equals the parity of `n`, exactly `n` messages have been sent, all on
channel MIDI_CHANNEL = 0 with controller BUTTON2_CC = 21, and the k-th
message (0-based index k, i.e. press number k+1) carries value 127 when
k+1 is odd and 0 when k+1 is even. -/
theorem button2_toggle_parity (n : ℕ) :
    (button2Run n).1 = decide (n % 2 = 1) ∧
      (button2Run n).2 =
        (List.range n).map fun k =>
          ⟨MIDI_CHANNEL, BUTTON2_CC, if (k + 1) % 2 = 1 then 127 else 0⟩ := by
  induction n with
  | zero => simp [button2Run]
  | succ n ih =>
    obtain ⟨ihs, ihm⟩ := ih
    have hstate : (button2Run (n + 1)).1 = decide ((n + 1) % 2 = 1) := by
      simp only [button2Run, button2Press, ihs]
      rcases Nat.mod_two_eq_zero_or_one n with h | h <;>
        simp [h, Nat.succ_mod_two_eq_one_iff]
    refine ⟨hstate, ?_⟩
    simp only [button2Run, button2Press, ihs, ihm, List.range_succ, List.map_append,
      List.map_cons, List.map_nil]
    rcases Nat.mod_two_eq_zero_or_one n with h | h
    · have h1 : (n + 1) % 2 = 1 := by omega
      simp [h, h1]
    · have h1 : (n + 1) % 2 ≠ 1 := by omega
      simp [h, h1]

theorem clampQ_le (lo hi x : ℚ) (h : lo ≤ hi) :
    lo ≤ clampQ lo hi x ∧ clampQ lo hi x ≤ hi := by
  unfold clampQ
  constructor
  · exact le_max_left lo _
  · exact max_le h (min_le_left hi x)

theorem normStep_fst_position (cfg : EncoderDef) (st : NormState) (d : ℤ) :
    (normStep cfg st d).1.position = newPosition cfg st d := by
  unfold normStep
  split <;> rfl

theorem newPosition_bounds (cfg : EncoderDef) (st : NormState) (d : ℤ)
    (h : 0 < cfg.rangeAngle) :
    0 ≤ newPosition cfg st d ∧ newPosition cfg st d ≤ cfg.rangeAngle :=
  clampQ_le 0 cfg.rangeAngle _ (le_of_lt h)

theorem normStep_position_bounds (cfg : EncoderDef) (st : NormState) (d : ℤ)
    (h : 0 < cfg.rangeAngle) :
    0 ≤ (normStep cfg st d).1.position ∧
      (normStep cfg st d).1.position ≤ cfg.rangeAngle := by
  rw [normStep_fst_position]
  exact newPosition_bounds cfg st d h

theorem runNorm_bounds (cfg : EncoderDef) (h : 0 < cfg.rangeAngle)
    (ds : List ℤ) (st : NormState)
    (h0 : 0 ≤ st.position) (h1 : st.position ≤ cfg.rangeAngle) :
    (0 ≤ (runNorm cfg st ds).1.position ∧
        (runNorm cfg st ds).1.position ≤ cfg.rangeAngle) ∧
      ∀ ev ∈ (runNorm cfg st ds).2, 0 ≤ ev.value ∧ ev.value ≤ 1 := by
  induction ds generalizing st with
  | nil => exact ⟨⟨h0, h1⟩, by simp [runNorm]⟩
  | cons d ds ih =>
    have hpos := normStep_position_bounds cfg st d h
    have hrec := ih (normStep cfg st d).1 hpos.1 hpos.2
    have hev : ∀ ev ∈ (normStep cfg st d).2.toList, 0 ≤ ev.value ∧ ev.value ≤ 1 := by
      intro ev hm
      have hb := newPosition_bounds cfg st d h
      unfold normStep at hm
      split at hm
      · simp only [Option.toList_some, List.mem_singleton] at hm
        subst hm
        constructor
        · exact div_nonneg hb.1 (le_of_lt h)
        · exact (div_le_one h).mpr hb.2
      · simp at hm
    constructor
    · simpa [runNorm] using hrec.1
    · intro ev hm
      simp only [runNorm, List.mem_append] at hm
      rcases hm with hm | hm
      · exact hev ev hm
      · exact hrec.2 ev hm

/-- C1: for every encoder channel with a positive configured rangeAngle and
every sequence of per-poll tick deltas, the normalized value after the run
lies in [0, 1], and so does the normalized value carried by every emitted
event; since every prefix of a run is itself a run, the normalized value is
in [0, 1] after every step, however far past either end stop the raw ticks
accumulate. -/
theorem normalized_value_in_unit_interval (cfg : EncoderDef)
    (h : 0 < cfg.rangeAngle) (ds : List ℤ) :
    (0 ≤ ((runNorm cfg normInit ds).1.normalized cfg) ∧
        ((runNorm cfg normInit ds).1.normalized cfg) ≤ 1) ∧
      ∀ ev ∈ (runNorm cfg normInit ds).2, 0 ≤ ev.value ∧ ev.value ≤ 1 := by
  have hb := runNorm_bounds cfg h ds normInit (le_refl 0) (le_of_lt h)
  refine ⟨⟨?_, ?_⟩, hb.2⟩
  · exact div_nonneg hb.1.1 (le_of_lt h)
  · exact (div_le_one h).mpr hb.1.2

/-- Witness for C1: encoder 1 of Config.hpp (rangeAngle 270 > 0) polled with
a large overshooting delta sequence keeps the normalized value in [0, 1]. -/
theorem normalized_value_in_unit_interval_witness :
    0 < (⟨1, 22, 23, 24, 270, 4, false⟩ : EncoderDef).rangeAngle ∧
      ((0 ≤ ((runNorm ⟨1, 22, 23, 24, 270, 4, false⟩ normInit
              [1000, -5000, 3]).1.normalized ⟨1, 22, 23, 24, 270, 4, false⟩) ∧
          ((runNorm ⟨1, 22, 23, 24, 270, 4, false⟩ normInit
              [1000, -5000, 3]).1.normalized ⟨1, 22, 23, 24, 270, 4, false⟩) ≤ 1) ∧
        ∀ ev ∈ (runNorm ⟨1, 22, 23, 24, 270, 4, false⟩ normInit [1000, -5000, 3]).2,
          0 ≤ ev.value ∧ ev.value ≤ 1) :=
  ⟨by norm_num,
    normalized_value_in_unit_interval ⟨1, 22, 23, 24, 270, 4, false⟩ (by norm_num)
      [1000, -5000, 3]⟩

/-- C3: for the encoder 1 configuration of Config.hpp (ticksPerEvent = 4),
a run of exactly 4 valid forward ticks from the empty quantum accumulator
emits exactly one EncoderTurn and a run of exactly 3 emits zero; in general
a normalizer step emits an event iff the ticks accumulated since the last
emission reach the ticksPerEvent threshold in either direction, and the
quantum accumulator resets to 0 on emission. -/
theorem encoder_turn_every_ticksPerEvent :
    ((runNorm ⟨1, 22, 23, 24, 270, 4, false⟩ normInit (List.replicate 4 1)).2.length = 1 ∧
        (runNorm ⟨1, 22, 23, 24, 270, 4, false⟩ normInit (List.replicate 3 1)).2.length = 0) ∧
      (∀ (cfg : EncoderDef) (st : NormState) (d : ℤ),
          (normStep cfg st d).2.isSome = true ↔
            (cfg.ticksPerEvent : ℤ) ≤ |st.quantum + d|) ∧
      ∀ (cfg : EncoderDef) (st : NormState) (d : ℤ),
        (cfg.ticksPerEvent : ℤ) ≤ |st.quantum + d| →
          (normStep cfg st d).1.quantum = 0 := by
  refine ⟨⟨by decide, by decide⟩, ?_, ?_⟩
  · intro cfg st d
    unfold normStep
    split
    · next hc => simpa using hc
    · next hc => simpa using hc
  · intro cfg st d hthr
    unfold normStep
    rw [if_pos hthr]

/-- Witness for C3: at encoder 1's configuration, a step whose quantum
accumulator reaches 4 (threshold 4) resets the accumulator to 0. -/
theorem encoder_turn_every_ticksPerEvent_witness :
    ((⟨1, 22, 23, 24, 270, 4, false⟩ : EncoderDef).ticksPerEvent : ℤ) ≤
        |(⟨0, 3⟩ : NormState).quantum + 1| ∧
      (normStep ⟨1, 22, 23, 24, 270, 4, false⟩ ⟨0, 3⟩ 1).1.quantum = 0 :=
  ⟨by decide,
    encoder_turn_every_ticksPerEvent.2.2 ⟨1, 22, 23, 24, 270, 4, false⟩ ⟨0, 3⟩ 1
      (by decide)⟩

theorem runGesture_cons (L D : ℕ) (st : GestureState) (now : ℕ)
    (edge : Option Bool) (ps : List (ℕ × Option Bool)) :
    runGesture L D st ((now, edge) :: ps) =
      ((runGesture L D (gestureStep L D st now edge).1 ps).1,
        (gestureStep L D st now edge).2 ++
          (runGesture L D (gestureStep L D st now edge).1 ps).2) :=
  rfl

theorem longCheck_of_fired (L : ℕ) (st : GestureState) (now : ℕ)
    (h : st.longFired = true) : longCheck L st now = (st, []) := by
  unfold longCheck
  rw [if_neg]
  simp [h]

theorem longCheck_count_longPress (L : ℕ) (st : GestureState) (now : ℕ) :
    (longCheck L st now).2.count BEvent.longPress =
      if st.pressed = true ∧ st.longFired = false ∧ L ≤ now - st.pressStart
      then 1 else 0 := by
  unfold longCheck
  split
  · next hc =>
    rw [if_pos]
    · rfl
    · exact ⟨hc.1, by simpa using hc.2.1, hc.2.2⟩
  · next hc =>
    rw [if_neg]
    · rfl
    · intro h
      exact hc ⟨h.1, by simp [h.2.1], h.2.2⟩

theorem longCheck_count_doubleTap (L : ℕ) (st : GestureState) (now : ℕ) :
    (longCheck L st now).2.count BEvent.doubleTap = 0 := by
  unfold longCheck
  split <;> rfl

theorem gestureStep_count_longPress (L D : ℕ) (st : GestureState) (now : ℕ)
    (edge : Option Bool) :
    (gestureStep L D st now edge).2.count BEvent.longPress =
      (longCheck L st now).2.count BEvent.longPress := by
  unfold gestureStep
  rcases edge with _ | b
  · rfl
  · cases b
    · rcases hlr : st.lastRelease with _ | t <;> simp [hlr, List.count_append]
      split <;> simp [List.count_append]
    · simp [List.count_append]

theorem gestureStep_fired_of_fired (L D : ℕ) (st : GestureState) (now : ℕ)
    (edge : Option Bool) (hf : st.longFired = true) (he : edge ≠ some true) :
    (gestureStep L D st now edge).1.longFired = true := by
  unfold gestureStep
  rcases edge with _ | b
  · rw [longCheck_of_fired L st now hf]
    exact hf
  · cases b
    · rcases hlr : st.lastRelease with _ | t
      · simp [hlr, longCheck_of_fired L st now hf, hf]
      · simp only [hlr]
        split <;> simp [longCheck_of_fired L st now hf, hf]
    · exact absurd rfl he

theorem runGesture_count_longPress_of_fired (L D : ℕ)
    (ps : List (ℕ × Option Bool)) (st : GestureState)
    (hf : st.longFired = true) (hps : ∀ p ∈ ps, p.2 ≠ some true) :
    (runGesture L D st ps).2.count BEvent.longPress = 0 := by
  induction ps generalizing st with
  | nil => rfl
  | cons p ps ih =>
    obtain ⟨now, edge⟩ := p
    have hedge : edge ≠ some true := hps (now, edge) (List.mem_cons_self _ _)
    rw [runGesture_cons, List.count_append]
    rw [gestureStep_count_longPress, longCheck_of_fired L st now hf]
    simp only [List.count_nil, Nat.zero_add]
    exact ih (gestureStep L D st now edge).1
      (gestureStep_fired_of_fired L D st now edge hf hedge)
      fun q hq => hps q (List.mem_cons_of_mem _ hq)

/-- Events of one press cycle of the Gesture Detector: starting immediately
after the stable press edge at time `t0` (pressed, long-press flag clear,
pending-release memory `lr`), the button is polled with no stable edge at
the times `ts` and finally sees its stable release edge at time `tr`. -/
def pressCycleEvents (t0 : ℕ) (lr : Option ℕ) (ts : List ℕ) (tr : ℕ) : List BEvent :=
  (runGesture LONG_PRESS_MS DOUBLE_TAP_MS ⟨true, t0, false, lr⟩
    ((ts.map fun t => (t, (none : Option Bool))) ++ [(tr, some false)])).2

theorem pressCycleEvents_count (t0 : ℕ) (lr : Option ℕ) (ts : List ℕ) (tr : ℕ) :
    (pressCycleEvents t0 lr ts tr).count BEvent.longPress =
      if (∃ t ∈ ts, LONG_PRESS_MS ≤ t - t0) ∨ LONG_PRESS_MS ≤ tr - t0
      then 1 else 0 := by
  induction ts with
  | nil =>
    unfold pressCycleEvents
    rw [List.map_nil, List.nil_append, runGesture_cons, List.count_append]
    rw [gestureStep_count_longPress, longCheck_count_longPress]
    simp only [runGesture, List.count_nil, Nat.add_zero]
    by_cases hthr : LONG_PRESS_MS ≤ tr - t0
    · simp [hthr]
    · simp [hthr]
  | cons t ts ih =>
    unfold pressCycleEvents
    rw [List.map_cons, List.cons_append, runGesture_cons, List.count_append]
    rw [gestureStep_count_longPress, longCheck_count_longPress]
    by_cases hthr : LONG_PRESS_MS ≤ t - t0
    · have hc : (⟨true, t0, false, lr⟩ : GestureState).pressed = true ∧
          (⟨true, t0, false, lr⟩ : GestureState).longFired = false ∧
          LONG_PRESS_MS ≤ t - (⟨true, t0, false, lr⟩ : GestureState).pressStart :=
        ⟨rfl, rfl, hthr⟩
      rw [if_pos hc]
      have hstep : (gestureStep LONG_PRESS_MS DOUBLE_TAP_MS ⟨true, t0, false, lr⟩ t
          none).1 = ⟨true, t0, true, lr⟩ := by
        simp [gestureStep, longCheck, hthr]
      rw [hstep, runGesture_count_longPress_of_fired _ _ _ _ rfl]
      · rw [if_pos (Or.inl ⟨t, List.mem_cons_self t ts, hthr⟩)]
      · intro q hq
        rcases List.mem_append.mp hq with hq | hq
        · obtain ⟨u, _, hu⟩ := List.mem_map.mp hq
          simp [← hu]
        · simp only [List.mem_singleton] at hq
          simp [hq]
    · have hc : ¬((⟨true, t0, false, lr⟩ : GestureState).pressed = true ∧
          (⟨true, t0, false, lr⟩ : GestureState).longFired = false ∧
          LONG_PRESS_MS ≤ t - (⟨true, t0, false, lr⟩ : GestureState).pressStart) :=
        fun h => hthr h.2.2
      rw [if_neg hc]
      have hstep : (gestureStep LONG_PRESS_MS DOUBLE_TAP_MS ⟨true, t0, false, lr⟩ t
          none).1 = ⟨true, t0, false, lr⟩ := by
        simp [gestureStep, longCheck, hthr]
      rw [hstep]
      rw [show (runGesture LONG_PRESS_MS DOUBLE_TAP_MS ⟨true, t0, false, lr⟩
          ((ts.map fun t => (t, (none : Option Bool))) ++ [(tr, some false)])).2 =
          pressCycleEvents t0 lr ts tr from rfl, ih]
      by_cases hrest : (∃ u ∈ ts, LONG_PRESS_MS ≤ u - t0) ∨ LONG_PRESS_MS ≤ tr - t0
      · rw [if_pos hrest, if_pos]
        rcases hrest with ⟨u, hu, hule⟩ | h
        · exact Or.inl ⟨u, List.mem_cons_of_mem t hu, hule⟩
        · exact Or.inr h
      · rw [if_neg hrest, if_neg]
        intro h
        rcases h with ⟨u, hu, hule⟩ | h
        · rcases List.mem_cons.mp hu with rfl | hu
          · exact hthr hule
          · exact hrest (Or.inl ⟨u, hu, hule⟩)
        · exact hrest (Or.inr h)

/-- C2: in a press cycle (stable press edge at `t0`, arbitrary further polls
at times `ts` while held, stable release edge at `tr`), at most one
ButtonLongPress is emitted, and if the press is held for at least
LONG_PRESS_MS = 500 (the release edge occurs at elapsed time ≥ 500 ms, or
any poll while held does) then exactly one is emitted — never a second one,
regardless of how many polls occur while the button stays pressed. -/
theorem long_press_once_per_cycle (t0 tr : ℕ) (lr : Option ℕ) (ts : List ℕ)
    (hheld : LONG_PRESS_MS ≤ tr - t0) :
    (pressCycleEvents t0 lr ts tr).count BEvent.longPress ≤ 1 ∧
      (pressCycleEvents t0 lr ts tr).count BEvent.longPress = 1 := by
  rw [pressCycleEvents_count]
  rw [if_pos (Or.inr hheld)]
  exact ⟨le_refl 1, rfl⟩

/-- Witness for C2: a press at 0 ms polled at 1, 250 and 600 ms then released
at 700 ms (≥ 500 ms held) emits exactly one ButtonLongPress. -/
theorem long_press_once_per_cycle_witness :
    LONG_PRESS_MS ≤ 700 - 0 ∧
      ((pressCycleEvents 0 none [1, 250, 600] 700).count BEvent.longPress ≤ 1 ∧
        (pressCycleEvents 0 none [1, 250, 600] 700).count BEvent.longPress = 1) :=
  ⟨by decide, long_press_once_per_cycle 0 700 none [1, 250, 600] (by decide)⟩

theorem runGesture_append (L D : ℕ) (st : GestureState)
    (ps qs : List (ℕ × Option Bool)) :
    runGesture L D st (ps ++ qs) =
      ((runGesture L D (runGesture L D st ps).1 qs).1,
        (runGesture L D st ps).2 ++ (runGesture L D (runGesture L D st ps).1 qs).2) := by
  induction ps generalizing st with
  | nil => simp [runGesture]
  | cons p ps ih =>
    obtain ⟨now, edge⟩ := p
    rw [List.cons_append, runGesture_cons, runGesture_cons, ih]
    simp [runGesture_cons, List.append_assoc]

theorem gestureStep_press_edge (L D : ℕ) (st : GestureState) (now : ℕ) :
    gestureStep L D st now (some true) =
      (⟨true, now, false, st.lastRelease⟩,
        (longCheck L st now).2 ++ [BEvent.press]) :=
  rfl

theorem gestureStep_release_no_pending (L D : ℕ) (st : GestureState) (now : ℕ)
    (h : st.lastRelease = none) :
    gestureStep L D st now (some false) =
      (⟨false, st.pressStart, (longCheck L st now).1.longFired, some now⟩,
        (longCheck L st now).2 ++ [BEvent.release]) := by
  unfold gestureStep
  rw [h]

theorem gestureStep_release_pairs (L D : ℕ) (st : GestureState) (now t : ℕ)
    (h : st.lastRelease = some t) (hw : now - t ≤ D) :
    gestureStep L D st now (some false) =
      (⟨false, st.pressStart, (longCheck L st now).1.longFired, none⟩,
        (longCheck L st now).2 ++ [BEvent.release, BEvent.doubleTap]) := by
  unfold gestureStep
  rw [h]
  simp only [if_pos hw]

theorem gesture_cycle_no_pending (L D : ℕ) (st : GestureState) (p t : ℕ)
    (h : st.lastRelease = none) :
    ∃ (F : Bool) (evs : List BEvent),
      runGesture L D st [(p, some true), (t, some false)] =
          (⟨false, p, F, some t⟩, evs) ∧
        evs.count BEvent.doubleTap = 0 := by
  rw [runGesture_cons, gestureStep_press_edge, h, runGesture_cons,
    gestureStep_release_no_pending L D ⟨true, p, false, none⟩ t rfl]
  refine ⟨_, _, rfl, ?_⟩
  simp [List.count_append, longCheck_count_doubleTap, runGesture]

theorem gesture_cycle_pairs (L D : ℕ) (st : GestureState) (p t tp : ℕ)
    (h : st.lastRelease = some tp) (hw : t - tp ≤ D) :
    ∃ (F : Bool) (evs : List BEvent),
      runGesture L D st [(p, some true), (t, some false)] =
          (⟨false, p, F, none⟩, evs) ∧
        evs.count BEvent.doubleTap = 1 := by
  rw [runGesture_cons, gestureStep_press_edge, h, runGesture_cons,
    gestureStep_release_pairs L D ⟨true, p, false, some tp⟩ t tp rfl hw]
  refine ⟨_, _, rfl, ?_⟩
  simp [List.count_append, longCheck_count_doubleTap, runGesture, List.count_cons]

/-- C5: a release edge occurring within DOUBLE_TAP_MS = 300 ms of the pending
previous release emits exactly one ButtonDoubleTap and clears the
pending-tap memory (double-tap timing is release-to-release); consequently
in a run of three press/release cycles whose releases at t1, t2, t3 are
each within the window of the previous one, exactly one ButtonDoubleTap is
emitted in total — the third release cannot re-pair with the consumed
middle release and is merely recorded as the new pending tap. -/
theorem double_tap_consumes_pair (st : GestureState) (now t : ℕ)
    (hlr : st.lastRelease = some t) (hw : now - t ≤ DOUBLE_TAP_MS)
    (p1 t1 p2 t2 p3 t3 : ℕ)
    (h12 : t2 - t1 ≤ DOUBLE_TAP_MS) (h23 : t3 - t2 ≤ DOUBLE_TAP_MS) :
    ((gestureStep LONG_PRESS_MS DOUBLE_TAP_MS st now (some false)).2.count
          BEvent.doubleTap = 1 ∧
        (gestureStep LONG_PRESS_MS DOUBLE_TAP_MS st now (some false)).1.lastRelease =
          none) ∧
      ((runGesture LONG_PRESS_MS DOUBLE_TAP_MS ⟨false, 0, false, none⟩
            [(p1, some true), (t1, some false), (p2, some true), (t2, some false),
              (p3, some true), (t3, some false)]).2.count BEvent.doubleTap = 1 ∧
        (runGesture LONG_PRESS_MS DOUBLE_TAP_MS ⟨false, 0, false, none⟩
            [(p1, some true), (t1, some false), (p2, some true), (t2, some false),
              (p3, some true), (t3, some false)]).1.lastRelease = some t3) := by
  constructor
  · rw [gestureStep_release_pairs LONG_PRESS_MS DOUBLE_TAP_MS st now t hlr hw]
    constructor
    · simp [List.count_append, longCheck_count_doubleTap, List.count_cons]
    · rfl
  · obtain ⟨F1, e1, h1, hc1⟩ :=
      gesture_cycle_no_pending LONG_PRESS_MS DOUBLE_TAP_MS ⟨false, 0, false, none⟩
        p1 t1 rfl
    obtain ⟨F2, e2, h2, hc2⟩ :=
      gesture_cycle_pairs LONG_PRESS_MS DOUBLE_TAP_MS ⟨false, p1, F1, some t1⟩
        p2 t2 t1 rfl h12
    obtain ⟨F3, e3, h3, hc3⟩ :=
      gesture_cycle_no_pending LONG_PRESS_MS DOUBLE_TAP_MS ⟨false, p2, F2, none⟩
        p3 t3 rfl
    have hsplit : [((p1 : ℕ), some true), (t1, some false), (p2, some true),
        (t2, some false), (p3, some true), (t3, some false)] =
        [((p1 : ℕ), some true), (t1, some false)] ++
          ([(p2, some true), (t2, some false)] ++ [(p3, some true), (t3, some false)]) :=
      rfl
    rw [hsplit, runGesture_append, h1, runGesture_append, h2, h3]
    constructor
    · simp [List.count_append, hc1, hc2, hc3]
    · rfl

/-- Witness for C5: releases at 100, 300 and 500 ms (each within 300 ms of
the previous) produce exactly one ButtonDoubleTap, and a single paired
release from a pending release at 0 observed at 200 ms clears the memory. -/
theorem double_tap_consumes_pair_witness :
    (⟨false, 7, false, some 0⟩ : GestureState).lastRelease = some 0 ∧
      200 - 0 ≤ DOUBLE_TAP_MS ∧ 300 - 100 ≤ DOUBLE_TAP_MS ∧ 500 - 300 ≤ DOUBLE_TAP_MS ∧
      (((gestureStep LONG_PRESS_MS DOUBLE_TAP_MS ⟨false, 7, false, some 0⟩ 200
              (some false)).2.count BEvent.doubleTap = 1 ∧
          (gestureStep LONG_PRESS_MS DOUBLE_TAP_MS ⟨false, 7, false, some 0⟩ 200
              (some false)).1.lastRelease = none) ∧
        ((runGesture LONG_PRESS_MS DOUBLE_TAP_MS ⟨false, 0, false, none⟩
              [(50, some true), (100, some false), (150, some true), (300, some false),
                (350, some true), (500, some false)]).2.count BEvent.doubleTap = 1 ∧
          (runGesture LONG_PRESS_MS DOUBLE_TAP_MS ⟨false, 0, false, none⟩
              [(50, some true), (100, some false), (150, some true), (300, some false),
                (350, some true), (500, some false)]).1.lastRelease = some 500)) :=
  ⟨rfl, by decide, by decide, by decide,
    double_tap_consumes_pair ⟨false, 7, false, some 0⟩ 200 0 rfl (by decide)
      50 100 150 300 350 500 (by decide) (by decide)⟩

theorem runDebounce_cons (d : ℕ) (aL : Bool) (st : DebounceState) (now : ℕ)
    (raw : Bool) (ps : List (ℕ × Bool)) :
    runDebounce d aL st ((now, raw) :: ps) =
      ((runDebounce d aL (debounceStep d aL st now raw).1 ps).1,
        (debounceStep d aL st now raw).2.toList ++
          (runDebounce d aL (debounceStep d aL st now raw).1 ps).2) :=
  rfl

theorem debounceStep_same (d : ℕ) (aL : Bool) (st : DebounceState) (now : ℕ)
    (raw : Bool) (h : candidate aL raw = st.stable) :
    debounceStep d aL st now raw = (⟨st.stable, none⟩, none) := by
  unfold debounceStep
  rw [if_pos h]

theorem debounceStep_settling (d : ℕ) (aL : Bool) (s : Bool) (t0 now : ℕ)
    (raw : Bool) (h : ¬candidate aL raw = s) (ht : now - t0 < d) :
    debounceStep d aL ⟨s, some t0⟩ now raw = (⟨s, some t0⟩, none) := by
  have ht' : ¬d ≤ now - t0 := by omega
  simp [debounceStep, h, ht']

theorem runDebounce_settling_hold (aL : Bool) (s : Bool) (t0 : ℕ)
    (ps : List (ℕ × Bool)) (tr : ℕ) (rr : Bool)
    (hps : ∀ p ∈ ps, ¬candidate aL p.2 = s ∧ p.1 - t0 < DEBOUNCE_MS)
    (hrr : candidate aL rr = s) :
    runDebounce DEBOUNCE_MS aL ⟨s, some t0⟩ (ps ++ [(tr, rr)]) = (⟨s, none⟩, []) := by
  induction ps with
  | nil =>
    rw [List.nil_append, runDebounce_cons, debounceStep_same _ _ _ _ _ hrr]
    rfl
  | cons p ps ih =>
    obtain ⟨t, r⟩ := p
    have hp := hps (t, r) (List.mem_cons_self _ _)
    rw [List.cons_append, runDebounce_cons,
      debounceStep_settling DEBOUNCE_MS aL s t0 t r hp.1 hp.2]
    simpa using ih fun q hq => hps q (List.mem_cons_of_mem _ hq)

/-- C6: starting from a stable level `s` with no settling in progress, a
candidate level that moves away from `s` at time `t1`, stays away only at
polls strictly less than DEBOUNCE_MS = 5 ms after `t1`, and then reverts to
`s`, produces no stable transition and no event at any poll, and leaves the
debouncer back at stable level `s` with the settling timer reset. -/
theorem debounce_rejects_short_bounce (aL s r1 : Bool) (t1 : ℕ)
    (ps : List (ℕ × Bool)) (tr : ℕ) (rr : Bool)
    (h1 : ¬candidate aL r1 = s)
    (hps : ∀ p ∈ ps, ¬candidate aL p.2 = s ∧ p.1 - t1 < DEBOUNCE_MS)
    (hrr : candidate aL rr = s) :
    runDebounce DEBOUNCE_MS aL ⟨s, none⟩ ((t1, r1) :: (ps ++ [(tr, rr)])) =
      (⟨s, none⟩, []) := by
  rw [runDebounce_cons]
  have hstep : debounceStep DEBOUNCE_MS aL ⟨s, none⟩ t1 r1 = (⟨s, some t1⟩, none) := by
    unfold debounceStep
    rw [if_neg h1]
  rw [hstep]
  simpa using runDebounce_settling_hold aL s t1 ps tr rr hps hrr

/-- Witness for C6: with an active-low button stable released (false), raw
LOW (candidate pressed) at 10, 12 and 13 ms, then raw HIGH again at 14 ms —
all inside the 5 ms window — yields no transition and resets the timer. -/
theorem debounce_rejects_short_bounce_witness :
    ¬candidate true false = false ∧
      (∀ p ∈ [((12 : ℕ), false), (13, false)],
        ¬candidate true p.2 = false ∧ p.1 - 10 < DEBOUNCE_MS) ∧
      candidate true true = false ∧
      runDebounce DEBOUNCE_MS true ⟨false, none⟩
          ((10, false) :: ([((12 : ℕ), false), (13, false)] ++ [(14, true)])) =
        (⟨false, none⟩, []) :=
  ⟨by decide, by decide, by decide,
    debounce_rejects_short_bounce true false false 10 [(12, false), (13, false)]
      14 true (by decide) (by decide) (by decide)⟩

end OC
